import Mathlib

/-!
Verification of the 2468 puzzle game (S-lab-sudo/Game-2468).

The repository ships the UI layer (GameBoard.tsx, Tile.tsx, useSwipe.ts) and a
developer document (For_Developer.md) describing the pure game engine
(src/lib/gameEngine.ts), which is not part of the provided sources.  The engine
definitions below are therefore modelled from the specification text; the
useSwipe and useBoardSize definitions are translated directly from the
TypeScript sources.
-/

set_option maxHeartbeats 1000000

namespace Game2468

/-- The four move directions, mapped in the engine to unit vectors
up=(-1,0), down=(1,0), left=(0,-1), right=(0,1). -/
inductive Direction where
  | up
  | down
  | left
  | right
deriving DecidableEq, Repr

/-- Modelled from the spec: a Tile entity of the Tile Store (data model, spec section 3):
opaque id, power-of-two value, current position, previous position for animation,
and the isNew / isMerged turn flags. -/
structure Tile where
  id : Nat
  value : Nat
  row : Nat
  col : Nat
  previousPosition : Option (Nat × Nat)
  isNew : Bool
  isMerged : Bool
deriving DecidableEq, Repr

/-- Modelled from the spec: a Board Snapshot — ordered set of tiles plus
gridSize, score and maxTileValue; immutable, one per turn. -/
structure Snapshot where
  tiles : List Tile
  gridSize : Nat
  score : Nat
  maxTileValue : Nat
deriving DecidableEq, Repr

/-- Modelled from the spec: PowerUpState — remaining-use counters for
divider, doubler, swapper and undo, plus the selected tile for the swapper. -/
structure PowerUpState where
  divider : Nat
  doubler : Nat
  swapper : Nat
  undo : Nat
  selectedTileId : Option Nat
deriving DecidableEq, Repr

/-- Modelled from the spec: the recoverable error kinds surfaced by the engine
(spec section 7). -/
inductive PowerUpError where
  | invalidTarget
  | exhausted
  | noHistory
deriving DecidableEq, Repr

/-! ## Move Engine (modelled from the spec, section 4.1)

The move algorithm processes each line (row for horizontal moves, column for
vertical moves) independently, traversing its cells starting from the far edge
in the movement direction.  We normalise every direction to a 1-d coordinate
`posInLine`: the distance of a cell from the far edge, so that tiles always
travel toward coordinate 0 and the traversal visits coordinates in increasing
order.  `cellOf` converts the 1-d coordinate back to a (row, col) cell. -/

/-- Index of the line (perpendicular to the movement axis) a tile lies in:
the row for horizontal moves, the column for vertical moves. -/
def lineOf (d : Direction) (t : Tile) : Nat :=
  match d with
  | .left | .right => t.row
  | .up | .down => t.col

/-- Distance of a tile's cell from the far edge in the movement direction.
Moving left the far edge is column 0, moving right it is column n-1, and
analogously for vertical moves. -/
def posInLine (d : Direction) (n : Nat) (t : Tile) : Nat :=
  match d with
  | .left => t.col
  | .right => n - 1 - t.col
  | .up => t.row
  | .down => n - 1 - t.row

/-- The (row, col) cell of line `i` at distance `p` from the far edge. -/
def cellOf (d : Direction) (n : Nat) (i : Nat) (p : Nat) : Nat × Nat :=
  match d with
  | .left => (i, p)
  | .right => (i, n - 1 - p)
  | .up => (p, i)
  | .down => (n - 1 - p, i)

/-- The tile of `placed` occupying distance `q` from the far edge, if any. -/
def tileAt1d (d : Direction) (n : Nat) (placed : List Tile) (q : Nat) : Option Tile :=
  placed.find? (fun u => posInLine d n u == q)

/-- Walk from distance `p` toward the far edge (distance 0): return the
farthest empty cell reached together with the first occupying tile blocking
further travel, if any — the farthest/next pair of the spec's raycast. -/
def findFarthest (d : Direction) (n : Nat) (placed : List Tile) : Nat → Nat × Option Tile
  | 0 => (0, none)
  | p + 1 =>
    match tileAt1d d n placed p with
    | none => findFarthest d n placed p
    | some u => (p + 1, some u)

/-- State threaded through the processing of tiles: the tiles already placed,
the score gained so far, the next fresh tile id, and whether anything moved. -/
structure LineState where
  placed : List Tile
  gained : Nat
  nextId : Nat
  moved : Bool
deriving Repr

/-- The tile `t` slid to distance `far` from the far edge of its line, its
previous position recorded. -/
def slideTile (d : Direction) (n : Nat) (t : Tile) (far : Nat) : Tile :=
  { t with
    row := (cellOf d n (lineOf d t) far).1,
    col := (cellOf d n (lineOf d t) far).2,
    previousPosition := some (t.row, t.col) }

/-- The tile created by merging the moving tile `t` into the blocking tile at
distance `pu`: a fresh id, double the value, flagged isMerged, with the moving
tile's pre-move position as previous position. -/
def mergeTile (d : Direction) (n : Nat) (nid : Nat) (t : Tile) (pu : Nat) : Tile :=
  { id := nid, value := t.value * 2,
    row := (cellOf d n (lineOf d t) pu).1,
    col := (cellOf d n (lineOf d t) pu).2,
    previousPosition := some (t.row, t.col), isNew := false, isMerged := true }

/-- Process one tile of a line: raycast toward the far edge; if the blocking
tile has equal value and was not already merged this move, merge into it
(destroying both source tiles and creating a doubled tile there, scoring the
new value); otherwise slide to the farthest empty cell, recording the previous
position only if the tile actually moved. -/
def processTile (d : Direction) (n : Nat) (st : LineState) (t : Tile) : LineState :=
  let p := posInLine d n t
  let far := (findFarthest d n st.placed p).1
  let target : Option Tile :=
    match (findFarthest d n st.placed p).2 with
    | some u => if u.value = t.value ∧ u.isMerged = false then some u else none
    | none => none
  match target with
  | some u =>
    { placed := st.placed.filter (fun x => posInLine d n x != posInLine d n u) ++
        [mergeTile d n st.nextId t (posInLine d n u)],
      gained := st.gained + t.value * 2,
      nextId := st.nextId + 1,
      moved := true }
  | none =>
    if far = p then
      { st with placed := st.placed ++ [t] }
    else
      { st with placed := st.placed ++ [slideTile d n t far], moved := true }

/-- The tiles of line `i`, listed by increasing distance from the far edge —
the traversal order of the spec (cells starting from the far edge in the
movement direction). -/
def lineTiles (d : Direction) (n : Nat) (tiles : List Tile) (i : Nat) : List Tile :=
  (List.range n).filterMap (fun q =>
    tiles.find? (fun t => lineOf d t == i && posInLine d n t == q))

/-- Process a whole line starting from an empty placement. -/
def processLine (d : Direction) (n : Nat) (nid : Nat) (ts : List Tile) : LineState :=
  ts.foldl (processTile d n) ⟨[], 0, nid, false⟩

/-- Clear the turn flags at the start of a move: isNew and isMerged are reset
and the previous position is cleared. -/
def prepareTile (t : Tile) : Tile :=
  { t with isNew := false, isMerged := false, previousPosition := none }

/-- Largest tile id in use (fresh merged-tile ids start above it). -/
def maxId (tiles : List Tile) : Nat :=
  tiles.foldr (fun t m => max t.id m) 0

/-- Largest tile value present on the board (0 for an empty board). -/
def maxVal (tiles : List Tile) : Nat :=
  tiles.foldr (fun t m => max t.value m) 0

/-- Process one whole line and append its outcome to the accumulated state. -/
def lineStep (d : Direction) (n : Nat) (tiles : List Tile) (acc : LineState) (i : Nat) :
    LineState :=
  let r := processLine d n acc.nextId (lineTiles d n tiles i)
  ⟨acc.placed ++ r.placed, acc.gained + r.gained, r.nextId, acc.moved || r.moved⟩

/-- Slide/merge simulation for one direction over the whole board: prepare the
tiles, process every line from the far edge, and return the new tiles, the
score gained, and whether at least one tile changed position or merged. -/
def moveTiles (d : Direction) (n : Nat) (tiles0 : List Tile) : List Tile × Nat × Bool :=
  let tiles := tiles0.map prepareTile
  let final := (List.range n).foldl (lineStep d n tiles) ⟨[], 0, maxId tiles0 + 1, false⟩
  (final.placed, final.gained, final.moved)

/-- Modelled from the spec: `move(snapshot, direction)` of gameEngine.ts —
a pure function returning the new snapshot (with the score increased by the
merge gains and maxTileValue recomputed) and the moved flag. -/
def move (s : Snapshot) (d : Direction) : Snapshot × Bool :=
  let r := moveTiles d s.gridSize s.tiles
  ({ tiles := r.1, gridSize := s.gridSize, score := s.score + r.2.1,
     maxTileValue := maxVal r.1 }, r.2.2)

/-! ## Terminal-State Detector and Spawn Generator (modelled from the spec) -/

/-- All grid cells of an n×n board. -/
def gridPositions (n : Nat) : List (Nat × Nat) :=
  (List.range n).flatMap (fun r => (List.range n).map (fun c => (r, c)))

/-- Whether some tile occupies the given cell. -/
def occupiedAt (tiles : List Tile) (p : Nat × Nat) : Bool :=
  tiles.any (fun t => t.row == p.1 && t.col == p.2)

/-- Modelled from the spec: the empty positions, enumerated by scanning the
full grid (spawn algorithm step 1, also used by the game-over check). -/
def emptyPositions (s : Snapshot) : List (Nat × Nat) :=
  (gridPositions s.gridSize).filter (fun p => !(occupiedAt s.tiles p))

/-- Two tiles on horizontally or vertically adjacent cells. -/
def Adjacent (t u : Tile) : Prop :=
  (t.row = u.row ∧ (t.col + 1 = u.col ∨ u.col + 1 = t.col)) ∨
  (t.col = u.col ∧ (t.row + 1 = u.row ∨ u.row + 1 = t.row))

instance (t u : Tile) : Decidable (Adjacent t u) := by
  unfold Adjacent
  infer_instance

/-- Whether some pair of adjacent tiles shares a value (a legal merge exists). -/
def hasMergeablePair (s : Snapshot) : Bool :=
  s.tiles.any (fun t => s.tiles.any (fun u =>
    t.value == u.value &&
      ((t.row == u.row && (t.col + 1 == u.col || u.col + 1 == t.col)) ||
        (t.col == u.col && (t.row + 1 == u.row || u.row + 1 == t.row)))))

/-- Modelled from the spec: `isGameOver(snapshot, powerUpState)` — the game is
over iff the grid is full, no adjacent tiles can merge, and the divider,
doubler and swapper use counters are all exhausted. -/
def isGameOver (s : Snapshot) (ps : PowerUpState) : Bool :=
  (emptyPositions s).isEmpty && !(hasMergeablePair s) &&
    ps.divider == 0 && ps.doubler == 0 && ps.swapper == 0

/-- Modelled from the spec: `spawnTile` of gameEngine.ts.  The uniform random
draw over the empty positions is supplied as the index seed `k` (the
implementation picks `emptyPositions[floor(random * length)]`), the
difficulty-weighted value draw as `v` and the fresh id as `nid`; the spawned
tile is new, unmerged and has no previous position.  A full board is a no-op
returning the snapshot unchanged. -/
def spawn (s : Snapshot) (k : Nat) (v : Nat) (nid : Nat) : Snapshot :=
  let es := emptyPositions s
  if es.isEmpty then s
  else
    let pos := es.getD (k % es.length) (0, 0)
    { s with tiles := s.tiles ++
        [{ id := nid, value := v, row := pos.1, col := pos.2,
           previousPosition := none, isNew := true, isMerged := false }] }

/-! ## Spawn difficulty weights (modelled from the spec and For_Developer.md)

The difficulty scalar is D = min(log10(score + maxTileValue * 20), 7), treated
as 0 at game start; the unnormalised spawn weights documented in
For_Developer.md are w2 = max(1, 100 - 20 D), w4 = max(1, 5 + 30 D),
w8 = max(0, (D - 3) * 25).  The weights are stated over ℚ (the share claims
are about the exact rational functions of D). -/

/-- The effective score feeding the difficulty scalar. -/
def effectiveScore (score maxTileValue : Nat) : Nat :=
  score + maxTileValue * 20

/-- Weight of spawning a 2: decays from 100, floored at 1. -/
def w2 (d : ℚ) : ℚ := max 1 (100 - 20 * d)

/-- Weight of spawning a 4: ramps up from 5, floored at 1. -/
def w4 (d : ℚ) : ℚ := max 1 (5 + 30 * d)

/-- Weight of spawning an 8: appears once D exceeds 3. -/
def w8 (d : ℚ) : ℚ := max 0 ((d - 3) * 25)

/-- Total unnormalised weight. -/
def totalWeight (d : ℚ) : ℚ := w2 d + w4 d + w8 d

/-- Share of the total weight going to value 2. -/
def w2Share (d : ℚ) : ℚ := w2 d / totalWeight d

/-- Share of the total weight going to value 4. -/
def w4Share (d : ℚ) : ℚ := w4 d / totalWeight d

/-! ## Power-Up Engine (modelled from the spec, section 4.3) -/

/-- The tile with the given id, if present. -/
def findTile (s : Snapshot) (tid : Nat) : Option Tile :=
  s.tiles.find? (fun t => t.id == tid)

/-- Modelled from the spec: the Divider power-up.  Fails with Exhausted when
its counter is 0; fails with InvalidTarget when the target tile does not exist
or its value is 2 (the Tile.tsx click guard only enables the divider for
value > 2); otherwise halves the target's value by integer floor division,
leaving position and tile count unchanged, and consumes one use. -/
def applyDivider (s : Snapshot) (ps : PowerUpState) (tid : Nat) :
    Except PowerUpError (Snapshot × PowerUpState) :=
  if ps.divider = 0 then .error .exhausted
  else
    match findTile s tid with
    | none => .error .invalidTarget
    | some t =>
      if t.value ≤ 2 then .error .invalidTarget
      else
        .ok ({ s with tiles := s.tiles.map (fun x =>
                 if x.id = tid then { x with value := x.value / 2 } else x) },
             { ps with divider := ps.divider - 1 })

/-- Modelled from the spec: the Doubler power-up.  Fails with Exhausted when
its counter is 0 and with InvalidTarget on a missing tile; otherwise doubles
the target's value, consumes one use, and reports won = true when the doubled
value reaches the configured win threshold. -/
def applyDoubler (winValue : Nat) (s : Snapshot) (ps : PowerUpState) (tid : Nat) :
    Except PowerUpError (Snapshot × PowerUpState × Bool) :=
  if ps.doubler = 0 then .error .exhausted
  else
    match findTile s tid with
    | none => .error .invalidTarget
    | some t =>
      .ok ({ s with tiles := s.tiles.map (fun x =>
               if x.id = tid then { x with value := x.value * 2 } else x) },
           { ps with doubler := ps.doubler - 1 },
           decide (winValue ≤ t.value * 2))

/-! ## Game state, moves and Undo (modelled from the spec) -/

/-- Modelled from the spec: the full game state held by the controller — the
current snapshot, the PowerUpState, and the single-level undo history (the one
game state saved immediately before the last board-changing move). -/
structure Game where
  snap : Snapshot
  ps : PowerUpState
  hist : Option (Snapshot × PowerUpState)
deriving Repr

/-- Modelled from the spec: executing a move.  When the move changed the
board, the pre-move snapshot and counters are saved as the one-level history
and a tile is spawned (spawn randomness as parameters); otherwise the state is
returned unchanged. -/
def doMove (g : Game) (d : Direction) (k v nid : Nat) : Game :=
  let r := move g.snap d
  if r.2 then { snap := spawn r.1 k v nid, ps := g.ps, hist := some (g.snap, g.ps) }
  else g

/-- Modelled from the spec: the Undo power-up.  Fails with NoHistory when no
prior state exists and with Exhausted when its budget is 0; otherwise restores
the saved snapshot and counters atomically, consuming one undo use.  The
single-level history itself is left in place. -/
def undo (g : Game) : Except PowerUpError Game :=
  match g.hist with
  | none => .error .noHistory
  | some (s0, ps0) =>
    if g.ps.undo = 0 then .error .exhausted
    else .ok { snap := s0, ps := { ps0 with undo := ps0.undo - 1 }, hist := g.hist }

/-! ## useSwipe (translated from src/src/hooks/useSwipe.ts)

onTouchEnd reads the stored touch start (none if onTouchStart never ran),
computes the deltas, ignores the gesture when max(abs dx, abs dy) is below the
threshold, and otherwise emits right/left by the sign of dx when
abs dx > abs dy, else down/up by the sign of dy. -/

/-- The direction emitted by onTouchEnd of useSwipe.ts for a gesture ending at
(endX, endY) given the stored touch start, or none. -/
def swipeDirection (start : Option (Int × Int)) (endX endY : Int) (threshold : Int) :
    Option Direction :=
  match start with
  | none => none
  | some (sx, sy) =>
    let deltaX := endX - sx
    let deltaY := endY - sy
    if max |deltaX| |deltaY| < threshold then none
    else if |deltaX| > |deltaY| then
      (if deltaX > 0 then some .right else some .left)
    else
      (if deltaY > 0 then some .down else some .up)

/-! ## useBoardSize (translated from src/src/components/GameBoard.tsx)

calculateSize: boardSize = min(maxBoardSize, screenWidth - 2*16) with
maxBoardSize 520/560/600 for gridSize 4/5/6; gap = max(4, floor(boardSize *
0.025 | 0.02 | 0.015)); cellSize = floor((boardSize - gap*(gridSize+1)) /
gridSize).  Integer division on ℤ is floor division for positive divisors,
matching Math.floor; the factors 0.025, 0.02, 0.015 are 1/40, 1/50, 3/200. -/

/-- Per-grid maximum board width in pixels. -/
def maxBoardSize (gridSize : Nat) : Int :=
  if gridSize = 4 then 520 else if gridSize = 5 then 560 else 600

/-- Board width for a given window width. -/
def boardSize (gridSize : Nat) (screenWidth : Nat) : Int :=
  min (maxBoardSize gridSize) ((screenWidth : Int) - 16 * 2)

/-- Gap between cells. -/
def gap (gridSize : Nat) (screenWidth : Nat) : Int :=
  let b := boardSize gridSize screenWidth
  max 4 (if gridSize ≤ 4 then b / 40 else if gridSize = 5 then b / 50 else 3 * b / 200)

/-- Cell size: the remaining width after all gaps, split evenly. -/
def cellSize (gridSize : Nat) (screenWidth : Nat) : Int :=
  (boardSize gridSize screenWidth - gap gridSize screenWidth * ((gridSize : Int) + 1)) /
    (gridSize : Int)

/-! ## Data-model invariants (spec section 3) -/

/-- The (row, col) position of a tile. -/
def posKey (t : Tile) : Nat × Nat := (t.row, t.col)

/-- At most one tile occupies a given position. -/
def DistinctPos (l : List Tile) : Prop :=
  List.Pairwise (fun a b => posKey a ≠ posKey b) l

/-- A position inside the n×n grid. -/
def InBounds (n : Nat) (t : Tile) : Prop := t.row < n ∧ t.col < n

/-- A power of two greater than or equal to 2. -/
def PowTwo (v : Nat) : Prop := ∃ k : Nat, v = 2 ^ (k + 1)

/-- The data-model invariants of a snapshot: at most one tile per position,
every tile inside the grid with a power-of-two value of at least 2, and
between 0 and gridSize² tiles. -/
def SnapInv (s : Snapshot) : Prop :=
  DistinctPos s.tiles ∧
  (∀ t ∈ s.tiles, InBounds s.gridSize t ∧ PowTwo t.value) ∧
  s.tiles.length ≤ s.gridSize ^ 2

/-- Invariant of the tiles placed while processing one line: all in line `i`,
in bounds, with power-of-two values, at pairwise distinct distances from the
far edge. -/
def LineOK (d : Direction) (n : Nat) (i : Nat) (l : List Tile) : Prop :=
  (∀ u ∈ l, lineOf d u = i ∧ InBounds n u ∧ PowTwo u.value) ∧
  List.Pairwise (fun a b => posInLine d n a ≠ posInLine d n b) l

/-- Invariant of the accumulated board: distinct positions, all tiles in
bounds with power-of-two values. -/
def BoardOK (n : Nat) (l : List Tile) : Prop :=
  DistinctPos l ∧ (∀ t ∈ l, InBounds n t ∧ PowTwo t.value)

lemma PowTwo.double {v : Nat} (h : PowTwo v) : PowTwo (v * 2) := by
  obtain ⟨k, rfl⟩ := h
  exact ⟨k + 1, by ring⟩

lemma posInLine_lt {d : Direction} {n : Nat} {t : Tile} (h : InBounds n t) :
    posInLine d n t < n := by
  obtain ⟨h1, h2⟩ := h
  cases d <;> simp only [posInLine] <;> omega

lemma lineOf_mk {d : Direction} {n i p : Nat} (t : Tile)
    (hr : t.row = (cellOf d n i p).1) (hc : t.col = (cellOf d n i p).2) :
    lineOf d t = i := by
  cases d <;> simp only [cellOf, lineOf] at hr hc ⊢ <;> omega

lemma posInLine_mk {d : Direction} {n i p : Nat} (hp : p < n) (t : Tile)
    (hr : t.row = (cellOf d n i p).1) (hc : t.col = (cellOf d n i p).2) :
    posInLine d n t = p := by
  cases d <;> simp only [cellOf, posInLine] at hr hc ⊢ <;> omega

lemma inBounds_mk {d : Direction} {n i p : Nat} (hi : i < n) (hp : p < n) (t : Tile)
    (hr : t.row = (cellOf d n i p).1) (hc : t.col = (cellOf d n i p).2) :
    InBounds n t := by
  cases d <;> simp only [cellOf, InBounds] at hr hc ⊢ <;> omega

lemma posKey_eq_iff {d : Direction} {n : Nat} {t u : Tile}
    (ht : InBounds n t) (hu : InBounds n u) :
    posKey t = posKey u ↔ lineOf d t = lineOf d u ∧ posInLine d n t = posInLine d n u := by
  obtain ⟨ht1, ht2⟩ := ht
  obtain ⟨hu1, hu2⟩ := hu
  cases d <;> simp only [posKey, lineOf, posInLine, Prod.mk.injEq] <;> omega

lemma lineOf_congr {d : Direction} {t u : Tile} (h : posKey t = posKey u) :
    lineOf d t = lineOf d u := by
  simp only [posKey, Prod.mk.injEq] at h
  cases d <;> simp only [lineOf] <;> omega

lemma tileAt1d_eq_none_iff {d : Direction} {n : Nat} {placed : List Tile} {q : Nat} :
    tileAt1d d n placed q = none ↔ ∀ u ∈ placed, posInLine d n u ≠ q := by
  simp [tileAt1d, List.find?_eq_none]

lemma findFarthest_fst_le {d : Direction} {n : Nat} {placed : List Tile} :
    ∀ p, (findFarthest d n placed p).1 ≤ p := by
  intro p
  induction p with
  | zero => simp [findFarthest]
  | succ p ih =>
    simp only [findFarthest]
    cases h : tileAt1d d n placed p with
    | none => exact Nat.le_succ_of_le ih
    | some u => exact le_rfl

lemma findFarthest_snd_some {d : Direction} {n : Nat} {placed : List Tile} :
    ∀ p fr u, findFarthest d n placed p = (fr, some u) →
      u ∈ placed ∧ posInLine d n u + 1 = fr ∧ fr ≤ p := by
  intro p
  induction p with
  | zero => intro fr u h; simp [findFarthest] at h
  | succ p ih =>
    intro fr u h
    simp only [findFarthest] at h
    cases hq : tileAt1d d n placed p with
    | none =>
      rw [hq] at h
      have := ih fr u h
      exact ⟨this.1, this.2.1, Nat.le_succ_of_le this.2.2⟩
    | some u' =>
      rw [hq] at h
      have h1 : p + 1 = fr := congrArg Prod.fst h
      have h2 : u' = u := Option.some.inj (congrArg Prod.snd h)
      subst h2
      subst h1
      simp only [tileAt1d] at hq
      have hp : posInLine d n u' = p := by
        have := List.find?_some hq
        simpa using this
      exact ⟨List.mem_of_find?_eq_some hq, by omega, le_rfl⟩

lemma findFarthest_fst_free {d : Direction} {n : Nat} {placed : List Tile} :
    ∀ p, (findFarthest d n placed p).1 = p ∨
      tileAt1d d n placed ((findFarthest d n placed p).1) = none := by
  intro p
  induction p with
  | zero => exact Or.inl rfl
  | succ p ih =>
    cases h : tileAt1d d n placed p with
    | none =>
      have hred : findFarthest d n placed (p + 1) = findFarthest d n placed p := by
        simp [findFarthest, h]
      rw [hred]
      rcases ih with h1 | h1
      · exact Or.inr (by rw [h1]; exact h)
      · exact Or.inr h1
    | some u =>
      have hred : findFarthest d n placed (p + 1) = (p + 1, some u) := by
        simp [findFarthest, h]
      rw [hred]
      exact Or.inl rfl

lemma filter_remove_one {d : Direction} {n : Nat} (u : Tile) (hum : u.isMerged = false) :
    ∀ l : List Tile, u ∈ l →
      List.Pairwise (fun a b : Tile => posInLine d n a ≠ posInLine d n b) l →
      ((l.filter fun x => posInLine d n x != posInLine d n u).length + 1 = l.length ∧
        (l.filter fun x => posInLine d n x != posInLine d n u).countP (fun x => x.isMerged) =
          l.countP fun x => x.isMerged) := by
  intro l
  induction l with
  | nil => intro h; cases h
  | cons a l ih =>
    intro hmem hpw
    rw [List.pairwise_cons] at hpw
    obtain ⟨hhead, htail⟩ := hpw
    by_cases hpos : posInLine d n a = posInLine d n u
    · have hau : u = a := by
        rcases List.mem_cons.mp hmem with h | h
        · exact h
        · exact absurd hpos (hhead u h)
      have hfeq : (a :: l).filter (fun x => posInLine d n x != posInLine d n u)
          = l.filter (fun x => posInLine d n x != posInLine d n u) := by
        simp [List.filter_cons, hpos]
      have hlf : l.filter (fun x => posInLine d n x != posInLine d n u) = l := by
        apply List.filter_eq_self.mpr
        intro x hx
        have := hhead x hx
        rw [hpos] at this
        simpa using this.symm
      rw [hfeq, hlf]
      subst hau
      refine ⟨by simp, ?_⟩
      simp [List.countP_cons, hum]
    · have hkeep : (a :: l).filter (fun x => posInLine d n x != posInLine d n u)
          = a :: l.filter (fun x => posInLine d n x != posInLine d n u) := by
        simp [List.filter_cons, hpos]
      have humem : u ∈ l := by
        rcases List.mem_cons.mp hmem with h | h
        · exact absurd (by rw [h]) hpos
        · exact h
      obtain ⟨ih1, ih2⟩ := ih humem htail
      rw [hkeep]
      constructor
      · simp only [List.length_cons]
        omega
      · simp [List.countP_cons, ih2]

lemma append_tile_ok {d : Direction} {n i q : Nat} (placed : List Tile) (t' : Tile)
    (hline : LineOK d n i placed)
    (ht'i : lineOf d t' = i) (ht'b : InBounds n t') (ht'p : PowTwo t'.value)
    (hfree : ∀ u ∈ placed, posInLine d n u ≠ posInLine d n t')
    (hahead : ∀ u ∈ placed, posInLine d n u < q)
    (ht'q : posInLine d n t' ≤ q) :
    LineOK d n i (placed ++ [t']) ∧
    (∀ u ∈ placed ++ [t'], posInLine d n u ≤ q) := by
  obtain ⟨hmem, hpw⟩ := hline
  refine ⟨⟨?_, ?_⟩, ?_⟩
  · intro u hu
    rcases List.mem_append.mp hu with h | h
    · exact hmem u h
    · rw [List.mem_singleton.mp h]
      exact ⟨ht'i, ht'b, ht'p⟩
  · rw [List.pairwise_append]
    exact ⟨hpw, List.pairwise_singleton _ _,
      fun a ha b hb => (List.mem_singleton.mp hb) ▸ hfree a ha⟩
  · intro u hu
    rcases List.mem_append.mp hu with h | h
    · exact (hahead u h).le
    · rw [List.mem_singleton.mp h]
      exact ht'q

lemma slideTile_fields (d : Direction) (n : Nat) (t : Tile) (far : Nat) :
    (slideTile d n t far).row = (cellOf d n (lineOf d t) far).1 ∧
    (slideTile d n t far).col = (cellOf d n (lineOf d t) far).2 ∧
    (slideTile d n t far).value = t.value ∧
    (slideTile d n t far).isMerged = t.isMerged :=
  ⟨rfl, rfl, rfl, rfl⟩

lemma mergeTile_fields (d : Direction) (n : Nat) (nid : Nat) (t : Tile) (pu : Nat) :
    (mergeTile d n nid t pu).row = (cellOf d n (lineOf d t) pu).1 ∧
    (mergeTile d n nid t pu).col = (cellOf d n (lineOf d t) pu).2 ∧
    (mergeTile d n nid t pu).value = t.value * 2 ∧
    (mergeTile d n nid t pu).isMerged = true :=
  ⟨rfl, rfl, rfl, rfl⟩

lemma processTile_ok {d : Direction} {n i : Nat} (st : LineState) (t : Tile)
    (hi : i < n)
    (hline : LineOK d n i st.placed)
    (hti : lineOf d t = i) (htb : InBounds n t) (htp : PowTwo t.value)
    (htm : t.isMerged = false)
    (hahead : ∀ u ∈ st.placed, posInLine d n u < posInLine d n t) :
    LineOK d n i (processTile d n st t).placed ∧
    (∀ u ∈ (processTile d n st t).placed, posInLine d n u ≤ posInLine d n t) ∧
    (processTile d n st t).placed.length +
        (processTile d n st t).placed.countP (fun x => x.isMerged) =
      st.placed.length + st.placed.countP (fun x => x.isMerged) + 1 ∧
    (processTile d n st t).placed.length ≤ st.placed.length + 1 := by
  have hp : posInLine d n t < n := posInLine_lt htb
  rcases hff : findFarthest d n st.placed (posInLine d n t) with ⟨far, nx⟩
  have hfar_le : far ≤ posInLine d n t := by
    have h := @findFarthest_fst_le d n st.placed (posInLine d n t)
    rw [hff] at h
    exact h
  have slide_own : processTile d n st t = { st with placed := st.placed ++ [t] } →
      LineOK d n i (processTile d n st t).placed ∧
      (∀ u ∈ (processTile d n st t).placed, posInLine d n u ≤ posInLine d n t) ∧
      (processTile d n st t).placed.length +
          (processTile d n st t).placed.countP (fun x => x.isMerged) =
        st.placed.length + st.placed.countP (fun x => x.isMerged) + 1 ∧
      (processTile d n st t).placed.length ≤ st.placed.length + 1 := by
    intro hpt
    rw [hpt]
    have h := append_tile_ok (q := posInLine d n t) st.placed t hline hti htb htp
      (fun u hu => (hahead u hu).ne) hahead le_rfl
    refine ⟨h.1, h.2, ?_, ?_⟩
    · have h1 : List.countP (fun x => x.isMerged) [t] = 0 := by simp [htm]
      simp only [List.length_append, List.countP_append, h1,
        List.length_cons, List.length_nil]
      omega
    · simp
  have slide_move : far ≠ posInLine d n t →
      processTile d n st t =
        { st with placed := st.placed ++ [slideTile d n t far], moved := true } →
      LineOK d n i (processTile d n st t).placed ∧
      (∀ u ∈ (processTile d n st t).placed, posInLine d n u ≤ posInLine d n t) ∧
      (processTile d n st t).placed.length +
          (processTile d n st t).placed.countP (fun x => x.isMerged) =
        st.placed.length + st.placed.countP (fun x => x.isMerged) + 1 ∧
      (processTile d n st t).placed.length ≤ st.placed.length + 1 := by
    intro hfp hpt
    have hfar_lt : far < posInLine d n t := lt_of_le_of_ne hfar_le hfp
    have hfar_n : far < n := lt_trans hfar_lt hp
    have hfree : tileAt1d d n st.placed far = none := by
      have h := @findFarthest_fst_free d n st.placed (posInLine d n t)
      rw [hff] at h
      rcases h with h | h
      · exact absurd h hfp
      · exact h
    have hfree' := tileAt1d_eq_none_iff.mp hfree
    have hlt' : lineOf d (slideTile d n t far) = i := by
      rw [lineOf_mk (slideTile d n t far) rfl rfl]
      exact hti
    have hps' : posInLine d n (slideTile d n t far) = far :=
      posInLine_mk hfar_n (slideTile d n t far) rfl rfl
    have hbs' : InBounds n (slideTile d n t far) :=
      inBounds_mk (by rw [hti]; exact hi) hfar_n (slideTile d n t far) rfl rfl
    rw [hpt]
    have h := append_tile_ok (q := posInLine d n t) st.placed (slideTile d n t far)
      hline hlt' hbs' htp
      (fun u hu => by rw [hps']; exact hfree' u hu) hahead (by rw [hps']; exact hfar_le)
    refine ⟨h.1, h.2, ?_, ?_⟩
    · have hms : (slideTile d n t far).isMerged = false := htm
      have h1 : List.countP (fun x => x.isMerged) [slideTile d n t far] = 0 := by
        simp [hms]
      simp only [List.length_append, List.countP_append, h1,
        List.length_cons, List.length_nil]
      omega
    · simp
  cases nx with
  | none =>
    have hpt : processTile d n st t =
        if far = posInLine d n t then { st with placed := st.placed ++ [t] }
        else { st with placed := st.placed ++ [slideTile d n t far], moved := true } := by
      simp [processTile, hff]
    by_cases hfp : far = posInLine d n t
    · exact slide_own (by rw [hpt, if_pos hfp])
    · exact slide_move hfp (by rw [hpt, if_neg hfp])
  | some u =>
    by_cases hcond : u.value = t.value ∧ u.isMerged = false
    · obtain ⟨humem, hpu1, hfar_le'⟩ :=
        @findFarthest_snd_some d n st.placed (posInLine d n t) far u hff
      have hpu_lt : posInLine d n u < posInLine d n t := by omega
      have hpu_n : posInLine d n u < n := lt_trans hpu_lt hp
      obtain ⟨hmem, hpw⟩ := hline
      have hpt : processTile d n st t =
          { placed := st.placed.filter (fun x => posInLine d n x != posInLine d n u) ++
              [mergeTile d n st.nextId t (posInLine d n u)],
            gained := st.gained + t.value * 2, nextId := st.nextId + 1, moved := true } := by
        simp only [processTile, hff]
        rw [if_pos hcond]
      have hlm : lineOf d (mergeTile d n st.nextId t (posInLine d n u)) = i := by
        rw [lineOf_mk (mergeTile d n st.nextId t (posInLine d n u)) rfl rfl]
        exact hti
      have hpm : posInLine d n (mergeTile d n st.nextId t (posInLine d n u)) =
          posInLine d n u :=
        posInLine_mk hpu_n (mergeTile d n st.nextId t (posInLine d n u)) rfl rfl
      have hbm : InBounds n (mergeTile d n st.nextId t (posInLine d n u)) :=
        inBounds_mk (by rw [hti]; exact hi) hpu_n
          (mergeTile d n st.nextId t (posInLine d n u)) rfl rfl
      have hvm : PowTwo (mergeTile d n st.nextId t (posInLine d n u)).value := htp.double
      have hfl := @filter_remove_one d n u hcond.2 st.placed humem hpw
      have hsubline : LineOK d n i (st.placed.filter
          (fun x => posInLine d n x != posInLine d n u)) :=
        ⟨fun x hx => hmem x (List.mem_of_mem_filter hx), List.Pairwise.filter _ hpw⟩
      have hfree : ∀ x ∈ st.placed.filter (fun x => posInLine d n x != posInLine d n u),
          posInLine d n x ≠ posInLine d n (mergeTile d n st.nextId t (posInLine d n u)) := by
        intro x hx
        rw [hpm]
        have := List.of_mem_filter hx
        simpa using this
      have hahead' : ∀ x ∈ st.placed.filter (fun x => posInLine d n x != posInLine d n u),
          posInLine d n x < posInLine d n t :=
        fun x hx => hahead x (List.mem_of_mem_filter hx)
      rw [hpt]
      have h := append_tile_ok (q := posInLine d n t) _
        (mergeTile d n st.nextId t (posInLine d n u)) hsubline hlm hbm hvm
        hfree hahead' (by rw [hpm]; exact hpu_lt.le)
      refine ⟨h.1, h.2, ?_, ?_⟩
      · have hmm : (mergeTile d n st.nextId t (posInLine d n u)).isMerged = true := rfl
        have h1 : List.countP (fun x => x.isMerged)
            [mergeTile d n st.nextId t (posInLine d n u)] = 1 := by
          simp [hmm]
        simp only [List.length_append, List.countP_append, h1,
          List.length_cons, List.length_nil, hfl.2]
        omega
      · simp only [List.length_append, List.length_cons, List.length_nil]
        omega
    · have hpt : processTile d n st t =
          if far = posInLine d n t then { st with placed := st.placed ++ [t] }
          else { st with placed := st.placed ++ [slideTile d n t far], moved := true } := by
        simp only [processTile, hff]
        rw [if_neg hcond]
      by_cases hfp : far = posInLine d n t
      · exact slide_own (by rw [hpt, if_pos hfp])
      · exact slide_move hfp (by rw [hpt, if_neg hfp])

lemma foldl_processTile_ok {d : Direction} {n i : Nat} (hi : i < n) :
    ∀ (ts : List Tile) (st : LineState),
      LineOK d n i st.placed →
      (∀ t ∈ ts, lineOf d t = i ∧ InBounds n t ∧ PowTwo t.value ∧ t.isMerged = false) →
      List.Pairwise (fun a b => posInLine d n a < posInLine d n b) ts →
      (∀ u ∈ st.placed, ∀ t ∈ ts, posInLine d n u < posInLine d n t) →
      LineOK d n i (ts.foldl (processTile d n) st).placed ∧
      (ts.foldl (processTile d n) st).placed.length +
          (ts.foldl (processTile d n) st).placed.countP (fun x => x.isMerged) =
        st.placed.length + st.placed.countP (fun x => x.isMerged) + ts.length ∧
      (ts.foldl (processTile d n) st).placed.length ≤ st.placed.length + ts.length := by
  intro ts
  induction ts with
  | nil =>
    intro st h1 _ _ _
    exact ⟨h1, by simp, by simp⟩
  | cons t rest ih =>
    intro st hline hts hsort hahead
    have ht := hts t (List.mem_cons_self t rest)
    rw [List.pairwise_cons] at hsort
    obtain ⟨hhd, htl⟩ := hsort
    obtain ⟨hline', hle', hcount', hlen'⟩ := processTile_ok st t hi hline
      ht.1 ht.2.1 ht.2.2.1 ht.2.2.2
      (fun u hu => hahead u hu t (List.mem_cons_self t rest))
    have hahead' : ∀ u ∈ (processTile d n st t).placed, ∀ t' ∈ rest,
        posInLine d n u < posInLine d n t' :=
      fun u hu t' ht' => lt_of_le_of_lt (hle' u hu) (hhd t' ht')
    have hrest := ih (processTile d n st t) hline'
      (fun t' ht' => hts t' (List.mem_cons_of_mem _ ht')) htl hahead'
    simp only [List.foldl_cons]
    refine ⟨hrest.1, ?_, ?_⟩
    · rw [hrest.2.1]
      simp only [List.length_cons]
      omega
    · have h2 := hrest.2.2
      simp only [List.length_cons]
      omega

lemma mem_lineTiles {d : Direction} {n : Nat} {tiles : List Tile} {i : Nat} {t : Tile}
    (h : t ∈ lineTiles d n tiles i) :
    t ∈ tiles ∧ lineOf d t = i ∧ posInLine d n t < n := by
  simp only [lineTiles, List.mem_filterMap, List.mem_range] at h
  obtain ⟨q, hq, hfind⟩ := h
  have hmem := List.mem_of_find?_eq_some hfind
  have hpred := List.find?_some hfind
  simp only [Bool.and_eq_true, beq_iff_eq] at hpred
  refine ⟨hmem, hpred.1, ?_⟩
  rw [hpred.2]
  exact hq

lemma lineTiles_sorted {d : Direction} {n : Nat} (tiles : List Tile) (i : Nat) :
    List.Pairwise (fun a b => posInLine d n a < posInLine d n b) (lineTiles d n tiles i) := by
  unfold lineTiles
  rw [List.pairwise_filterMap]
  refine (List.pairwise_lt_range n).imp ?_
  intro q1 q2 hlt x hx y hy
  rw [Option.mem_def] at hx hy
  have hx' := List.find?_some hx
  have hy' := List.find?_some hy
  simp only [Bool.and_eq_true, beq_iff_eq] at hx' hy'
  rw [hx'.2, hy'.2]
  exact hlt

lemma distinctPos_nodup {l : List Tile} (h : DistinctPos l) : l.Nodup :=
  h.imp (fun hne heq => hne (congrArg posKey heq))

lemma lineTiles_nodup {d : Direction} {n : Nat} (tiles : List Tile) (i : Nat) :
    (lineTiles d n tiles i).Nodup :=
  (lineTiles_sorted tiles i).imp (fun hlt heq => absurd (heq ▸ hlt) (lt_irrefl _))

lemma mem_lineTiles_iff {d : Direction} {n : Nat} {tiles : List Tile} {i : Nat} {t : Tile}
    (hd : DistinctPos tiles) (hb : ∀ x ∈ tiles, InBounds n x) :
    t ∈ lineTiles d n tiles i ↔ t ∈ tiles ∧ lineOf d t = i := by
  constructor
  · intro h
    have h1 := mem_lineTiles h
    exact ⟨h1.1, h1.2.1⟩
  · rintro ⟨htmem, hti⟩
    have hq : posInLine d n t < n := posInLine_lt (hb t htmem)
    have hsome : (tiles.find? (fun x =>
        lineOf d x == i && posInLine d n x == posInLine d n t)).isSome := by
      rw [List.find?_isSome]
      exact ⟨t, htmem, by simp [hti]⟩
    obtain ⟨x, hx⟩ := Option.isSome_iff_exists.mp hsome
    have hxmem := List.mem_of_find?_eq_some hx
    have hxpred := List.find?_some hx
    simp only [Bool.and_eq_true, beq_iff_eq] at hxpred
    have hsymm : Symmetric (fun a b : Tile => posKey a ≠ posKey b) :=
      fun a b h => h.symm
    have hxt : x = t := by
      by_contra hne
      have hkey := hd.forall hsymm hxmem htmem hne
      exact hkey ((posKey_eq_iff (d := d) (hb x hxmem) (hb t htmem)).mpr
        ⟨by rw [hxpred.1, hti], hxpred.2⟩)
    simp only [lineTiles, List.mem_filterMap, List.mem_range]
    refine ⟨posInLine d n t, hq, ?_⟩
    rw [← hxt] at hx ⊢
    exact hx

lemma lineTiles_length {d : Direction} {n : Nat} (tiles : List Tile) (i : Nat)
    (hd : DistinctPos tiles) (hb : ∀ x ∈ tiles, InBounds n x) :
    (lineTiles d n tiles i).length =
      (tiles.filter (fun x => lineOf d x == i)).length := by
  apply le_antisymm
  · apply List.Subperm.length_le
    apply List.subperm_of_subset (lineTiles_nodup tiles i)
    intro x hx
    have h := mem_lineTiles hx
    rw [List.mem_filter]
    exact ⟨h.1, by simp [h.2.1]⟩
  · apply List.Subperm.length_le
    apply List.subperm_of_subset ((distinctPos_nodup hd).filter _)
    intro x hx
    rw [List.mem_filter] at hx
    exact (mem_lineTiles_iff hd hb).mpr ⟨hx.1, by simpa using hx.2⟩

lemma sum_map_add_nat {α : Type} (r : List α) (u v : α → Nat) :
    (r.map (fun i => u i + v i)).sum = (r.map u).sum + (r.map v).sum := by
  induction r with
  | nil => simp
  | cons a r ih =>
    simp only [List.map_cons, List.sum_cons, ih]
    omega

lemma sum_map_indicator {j : Nat} :
    ∀ r : List Nat, j ∈ r → r.Nodup →
      (r.map (fun i => if j = i then 1 else 0)).sum = 1 := by
  intro r
  induction r with
  | nil => intro h; cases h
  | cons a r ih =>
    intro hj hnd
    rw [List.nodup_cons] at hnd
    rcases List.mem_cons.mp hj with heq | hj'
    · subst heq
      have hz : (r.map (fun i => if j = i then 1 else 0)).sum = 0 := by
        rw [List.sum_eq_zero]
        intro x hx
        rw [List.mem_map] at hx
        obtain ⟨b, hb, rfl⟩ := hx
        have hne : j ≠ b := fun h => hnd.1 (h ▸ hb)
        simp [hne]
      simp [hz]
    · have hne : j ≠ a := fun h => hnd.1 (h ▸ hj')
      simp [hne, ih hj' hnd.2]

lemma sum_filter_lengths {d : Direction} {n : Nat} :
    ∀ tiles : List Tile, (∀ t ∈ tiles, lineOf d t < n) →
      ((List.range n).map
        (fun i => (tiles.filter (fun x => lineOf d x == i)).length)).sum = tiles.length := by
  intro tiles
  induction tiles with
  | nil =>
    intro _
    simp
  | cons a l ih =>
    intro h
    have ha : lineOf d a < n := h a (List.mem_cons_self a l)
    have hstep : ∀ i, ((a :: l).filter (fun x => lineOf d x == i)).length
        = (if lineOf d a = i then 1 else 0) +
          (l.filter (fun x => lineOf d x == i)).length := by
      intro i
      by_cases hai : lineOf d a = i
      · simp [List.filter_cons, hai]
        omega
      · simp [List.filter_cons, hai]
    rw [List.map_congr_left (fun i _ => hstep i), sum_map_add_nat,
      sum_map_indicator (List.range n) (List.mem_range.mpr ha) (List.nodup_range n),
      ih (fun t ht => h t (List.mem_cons_of_mem _ ht))]
    simp [Nat.add_comm]

lemma sum_lineTiles_length {d : Direction} {n : Nat} (tiles : List Tile)
    (hd : DistinctPos tiles) (hb : ∀ x ∈ tiles, InBounds n x) :
    ((List.range n).map (fun i => (lineTiles d n tiles i).length)).sum = tiles.length := by
  rw [List.map_congr_left (fun i _ => lineTiles_length tiles i hd hb)]
  apply sum_filter_lengths tiles
  intro t ht
  obtain ⟨h1, h2⟩ := hb t ht
  cases d <;> simp only [lineOf] <;> omega

lemma lineTiles_length_le {d : Direction} {n : Nat} (tiles : List Tile) (i : Nat) :
    (lineTiles d n tiles i).length ≤ n := by
  have h := List.length_filterMap_le (fun q =>
    tiles.find? (fun t => lineOf d t == i && posInLine d n t == q)) (List.range n)
  simpa [lineTiles] using h

lemma foldl_lineStep_ok {d : Direction} {n : Nat} (tiles : List Tile)
    (htiles : ∀ t ∈ tiles, InBounds n t ∧ PowTwo t.value ∧ t.isMerged = false) :
    ∀ (l : List Nat) (acc : LineState),
      l.Nodup → (∀ j ∈ l, j < n) →
      BoardOK n acc.placed →
      (∀ u ∈ acc.placed, lineOf d u ∉ l) →
      BoardOK n (l.foldl (lineStep d n tiles) acc).placed ∧
      (l.foldl (lineStep d n tiles) acc).placed.length +
          (l.foldl (lineStep d n tiles) acc).placed.countP (fun x => x.isMerged) =
        acc.placed.length + acc.placed.countP (fun x => x.isMerged) +
          (l.map (fun i => (lineTiles d n tiles i).length)).sum ∧
      (l.foldl (lineStep d n tiles) acc).placed.length ≤
        acc.placed.length + l.length * n := by
  intro l
  induction l with
  | nil =>
    intro acc _ _ hb _
    exact ⟨hb, by simp, by simp⟩
  | cons i l ih =>
    intro acc hnd hlt hb hnotin
    rw [List.nodup_cons] at hnd
    have hi : i < n := hlt i (List.mem_cons_self i l)
    have hts : ∀ t ∈ lineTiles d n tiles i,
        lineOf d t = i ∧ InBounds n t ∧ PowTwo t.value ∧ t.isMerged = false := by
      intro t ht
      have h1 := mem_lineTiles ht
      have h2 := htiles t h1.1
      exact ⟨h1.2.1, h2.1, h2.2.1, h2.2.2⟩
    obtain ⟨hlOK, hlcnt, hllen⟩ := foldl_processTile_ok hi (lineTiles d n tiles i)
      ⟨[], 0, acc.nextId, false⟩ ⟨by simp, List.Pairwise.nil⟩ hts
      (lineTiles_sorted tiles i) (by simp)
    have hstepeq : lineStep d n tiles acc i =
        ⟨acc.placed ++ ((lineTiles d n tiles i).foldl (processTile d n)
            ⟨[], 0, acc.nextId, false⟩).placed,
          acc.gained + ((lineTiles d n tiles i).foldl (processTile d n)
            ⟨[], 0, acc.nextId, false⟩).gained,
          ((lineTiles d n tiles i).foldl (processTile d n)
            ⟨[], 0, acc.nextId, false⟩).nextId,
          acc.moved || ((lineTiles d n tiles i).foldl (processTile d n)
            ⟨[], 0, acc.nextId, false⟩).moved⟩ := rfl
    set r : LineState := (lineTiles d n tiles i).foldl (processTile d n)
      ⟨[], 0, acc.nextId, false⟩ with hr
    have hrline : ∀ u ∈ r.placed, lineOf d u = i := fun u hu => (hlOK.1 u hu).1
    have hrbounds : ∀ u ∈ r.placed, InBounds n u ∧ PowTwo u.value :=
      fun u hu => ⟨(hlOK.1 u hu).2.1, (hlOK.1 u hu).2.2⟩
    have hbnew : BoardOK n (acc.placed ++ r.placed) := by
      refine ⟨?_, ?_⟩
      · rw [DistinctPos, List.pairwise_append]
        refine ⟨hb.1, ?_, ?_⟩
        · apply List.Pairwise.imp_of_mem ?_ hlOK.2
          intro a b ha hb' hne heq
          exact hne ((posKey_eq_iff (d := d) (hrbounds a ha).1 (hrbounds b hb').1).mp heq).2
        · intro a ha b hb' heq
          have h1 : lineOf d a ≠ i := fun h => hnotin a ha (h ▸ List.mem_cons_self i l)
          exact h1 (by rw [lineOf_congr (d := d) heq, hrline b hb'])
      · intro t ht
        rcases List.mem_append.mp ht with h | h
        · exact hb.2 t h
        · exact hrbounds t h
    have hnotin' : ∀ u ∈ acc.placed ++ r.placed, lineOf d u ∉ l := by
      intro u hu
      rcases List.mem_append.mp hu with h | h
      · intro hc
        exact hnotin u h (List.mem_cons_of_mem _ hc)
      · rw [hrline u h]
        exact hnd.1
    have hrec := ih (lineStep d n tiles acc i) hnd.2
      (fun j hj => hlt j (List.mem_cons_of_mem _ hj))
      (by rw [hstepeq]; exact hbnew)
      (by rw [hstepeq]; exact hnotin')
    have hacc1 : (lineStep d n tiles acc i).placed = acc.placed ++ r.placed := by
      rw [hstepeq]
    have hc0 : r.placed.length + r.placed.countP (fun x => x.isMerged) =
        (lineTiles d n tiles i).length := by
      simpa using hlcnt
    rw [List.foldl_cons]
    refine ⟨hrec.1, ?_, ?_⟩
    · rw [hrec.2.1, hacc1]
      simp only [List.length_append, List.countP_append, List.map_cons, List.sum_cons]
      omega
    · have h2 := hrec.2.2
      rw [hacc1] at h2
      simp only [List.length_append] at h2
      have h3 : r.placed.length ≤ n :=
        le_trans (by simpa using hllen) (lineTiles_length_le (d := d) tiles i)
      have h4 : (i :: l).length * n = l.length * n + n := by
        simp only [List.length_cons]
        ring
      omega

lemma moveTiles_ok {d : Direction} {n : Nat} {tiles0 : List Tile}
    (hd : DistinctPos tiles0) (hv : ∀ t ∈ tiles0, InBounds n t ∧ PowTwo t.value) :
    BoardOK n (moveTiles d n tiles0).1 ∧
    (moveTiles d n tiles0).1.length ≤ n * n ∧
    (moveTiles d n tiles0).1.length +
        (moveTiles d n tiles0).1.countP (fun x => x.isMerged) = tiles0.length := by
  have hdp : DistinctPos (tiles0.map prepareTile) := by
    rw [DistinctPos, List.pairwise_map]
    exact hd
  have hbp : ∀ t ∈ tiles0.map prepareTile,
      InBounds n t ∧ PowTwo t.value ∧ t.isMerged = false := by
    intro t ht
    rw [List.mem_map] at ht
    obtain ⟨x, hx, rfl⟩ := ht
    exact ⟨(hv x hx).1, (hv x hx).2, rfl⟩
  have hb0 : ∀ x ∈ tiles0.map prepareTile, InBounds n x := fun x hx => (hbp x hx).1
  have h := foldl_lineStep_ok (d := d) (tiles0.map prepareTile) hbp (List.range n)
    ⟨[], 0, maxId tiles0 + 1, false⟩ (List.nodup_range n)
    (fun j hj => List.mem_range.mp hj) ⟨List.Pairwise.nil, by simp⟩ (by simp)
  have hmeq : (moveTiles d n tiles0).1 =
      ((List.range n).foldl (lineStep d n (tiles0.map prepareTile))
        ⟨[], 0, maxId tiles0 + 1, false⟩).placed := rfl
  rw [hmeq]
  refine ⟨h.1, ?_, ?_⟩
  · have h2 := h.2.2
    simpa using h2
  · have h2 := h.2.1
    rw [sum_lineTiles_length (tiles0.map prepareTile) hdp hb0] at h2
    simpa using h2

/-! ## Theorems for the claims -/

/-- C3: a move preserves the data-model invariants — the snapshot produced by
move again has at most one tile per position, only power-of-two values of at
least 2 on in-bounds cells, and between 0 and gridSize² tiles. -/
theorem move_preserves_invariants (s : Snapshot) (d : Direction) (h : SnapInv s) :
    SnapInv ((move s d).1) := by
  obtain ⟨hd, hv, _⟩ := h
  have hm := @moveTiles_ok d s.gridSize s.tiles hd hv
  have ht : (move s d).1.tiles = (moveTiles d s.gridSize s.tiles).1 := rfl
  have hg : (move s d).1.gridSize = s.gridSize := rfl
  refine ⟨?_, ?_, ?_⟩
  · rw [ht]
    exact hm.1.1
  · intro t htm
    rw [ht] at htm
    rw [hg]
    exact hm.1.2 t htm
  · rw [ht, hg, pow_two]
    exact hm.2.1

/-- A 2×2 snapshot with a 2-tile and a 4-tile for the invariant witness. -/
def c3Board : Snapshot :=
  { tiles := [{ id := 1, value := 2, row := 0, col := 0,
                previousPosition := none, isNew := false, isMerged := false },
              { id := 2, value := 4, row := 1, col := 1,
                previousPosition := none, isNew := false, isMerged := false }],
    gridSize := 2, score := 0, maxTileValue := 4 }

/-- C3 witness: the concrete 2×2 snapshot satisfies the invariants, and so
does its left-move image. -/
theorem move_preserves_invariants_witness :
    SnapInv c3Board ∧ SnapInv ((move c3Board Direction.left).1) := by
  have hinv : SnapInv c3Board := by
    refine ⟨?_, ?_, ?_⟩
    · unfold DistinctPos
      decide
    · intro t ht
      fin_cases ht
      · exact ⟨⟨by decide, by decide⟩, 0, rfl⟩
      · exact ⟨⟨by decide, by decide⟩, 1, rfl⟩
    · decide
  exact ⟨hinv, move_preserves_invariants c3Board Direction.left hinv⟩

/-- A 4×4 board whose top row reads [2, 2, 4] toward the right edge. -/
def row224 : Snapshot :=
  { tiles := [{ id := 1, value := 2, row := 0, col := 1,
                previousPosition := none, isNew := false, isMerged := false },
              { id := 2, value := 2, row := 0, col := 2,
                previousPosition := none, isNew := false, isMerged := false },
              { id := 3, value := 4, row := 0, col := 3,
                previousPosition := none, isNew := false, isMerged := false }],
    gridSize := 4, score := 0, maxTileValue := 4 }

/-- C2: merges never cascade within a move.  Every isMerged tile of the output
consumed exactly two pre-move tiles: the tile count plus the merged-tile count
of the result equals the pre-move tile count (a cascaded re-merge would
consume three tiles for one merged output and break this equation).  In
particular the row [2, 2, 4] moved toward the 4 yields values [4, 4] with one
merged tile — never an 8. -/
theorem move_no_double_merge :
    (∀ (s : Snapshot) (d : Direction), SnapInv s →
      (move s d).1.tiles.length +
        (move s d).1.tiles.countP (fun t => t.isMerged) = s.tiles.length) ∧
    ((move row224 Direction.right).1.tiles.map (fun t => t.value) = [4, 4] ∧
      (move row224 Direction.right).1.tiles.countP (fun t => t.isMerged) = 1) := by
  constructor
  · intro s d h
    exact (moveTiles_ok h.1 h.2.1).2.2
  · exact ⟨by decide, by decide⟩

/-- C2 witness: the [2, 2, 4] board satisfies the invariants and instantiates
the merge-counting equation: 2 output tiles plus 1 merged tile equal the 3
input tiles. -/
theorem move_no_double_merge_witness :
    SnapInv row224 ∧
    (move row224 Direction.right).1.tiles.length +
      (move row224 Direction.right).1.tiles.countP (fun t => t.isMerged) =
        row224.tiles.length := by
  have hinv : SnapInv row224 := by
    refine ⟨?_, ?_, ?_⟩
    · unfold DistinctPos
      decide
    · intro t ht
      fin_cases ht
      · exact ⟨⟨by decide, by decide⟩, 0, rfl⟩
      · exact ⟨⟨by decide, by decide⟩, 0, rfl⟩
      · exact ⟨⟨by decide, by decide⟩, 1, rfl⟩
    · decide
  exact ⟨hinv, move_no_double_merge.1 row224 Direction.right hinv⟩

/-- C9: in useSwipe's onTouchEnd, a missing touch start emits nothing; a
gesture whose larger absolute displacement is below the threshold emits
nothing; otherwise exactly one direction is emitted — right/left by the sign
of dx when abs dx exceeds abs dy, down/up by the sign of dy otherwise, so a
tie always resolves vertically. -/
theorem swipe_onTouchEnd_spec :
    (∀ endX endY threshold : Int, swipeDirection none endX endY threshold = none) ∧
    (∀ sx sy endX endY threshold : Int,
      (max |endX - sx| |endY - sy| < threshold →
        swipeDirection (some (sx, sy)) endX endY threshold = none) ∧
      (threshold ≤ max |endX - sx| |endY - sy| →
        (|endY - sy| < |endX - sx| →
          swipeDirection (some (sx, sy)) endX endY threshold =
            some (if 0 < endX - sx then Direction.right else Direction.left)) ∧
        (|endX - sx| ≤ |endY - sy| →
          swipeDirection (some (sx, sy)) endX endY threshold =
            some (if 0 < endY - sy then Direction.down else Direction.up)) ∧
        (|endX - sx| = |endY - sy| →
          swipeDirection (some (sx, sy)) endX endY threshold = some Direction.down ∨
          swipeDirection (some (sx, sy)) endX endY threshold = some Direction.up))) := by
  refine ⟨fun _ _ _ => rfl, fun sx sy endX endY threshold => ⟨?_, ?_⟩⟩
  · intro h
    simp only [swipeDirection]
    rw [if_pos h]
  · intro h
    have hnot : ¬ max |endX - sx| |endY - sy| < threshold := not_lt.mpr h
    refine ⟨?_, ?_, ?_⟩
    · intro hx
      simp only [swipeDirection]
      rw [if_neg hnot, if_pos hx]
      exact (apply_ite some _ _ _).symm
    · intro hy
      simp only [swipeDirection]
      rw [if_neg hnot, if_neg (not_lt.mpr hy)]
      exact (apply_ite some _ _ _).symm
    · intro heq
      have hy : |endX - sx| ≤ |endY - sy| := le_of_eq heq
      simp only [swipeDirection]
      rw [if_neg hnot, if_neg (not_lt.mpr hy)]
      by_cases h0 : 0 < endY - sy
      · exact Or.inl (by rw [if_pos h0])
      · exact Or.inr (by rw [if_neg h0])

/-- C9 witness: a concrete rightward gesture of 100 px against 30 px vertical
drift emits right; a 20 px gesture emits nothing; a diagonal tie resolves
vertically. -/
theorem swipe_onTouchEnd_spec_witness :
    swipeDirection (some (0, 0)) 100 30 50 = some Direction.right ∧
    swipeDirection (some (0, 0)) 20 10 50 = none ∧
    (swipeDirection (some (0, 0)) 60 60 50 = some Direction.down ∨
      swipeDirection (some (0, 0)) 60 60 50 = some Direction.up) := by
  refine ⟨?_, ?_, ?_⟩
  · have h := ((swipe_onTouchEnd_spec.2 0 0 100 30 50).2 (by decide)).1 (by decide)
    simpa using h
  · exact (swipe_onTouchEnd_spec.2 0 0 20 10 50).1 (by decide)
  · exact ((swipe_onTouchEnd_spec.2 0 0 60 60 50).2 (by decide)).2.2 (by decide)

/-- C10: for the supported grid sizes and any window width, the board never
exceeds its per-grid maximum (520/560/600), the gap is an integer of at least
4, the cell size is the floor of the remaining width divided by the grid
size, and the cells plus all gaps always fit inside the board. -/
theorem useBoardSize_fits (g : Nat) (hg : g = 4 ∨ g = 5 ∨ g = 6) (w : Nat) :
    boardSize g w ≤ (if g = 4 then 520 else if g = 5 then 560 else 600) ∧
    4 ≤ gap g w ∧
    cellSize g w =
      (boardSize g w - gap g w * ((g : Int) + 1)) / (g : Int) ∧
    (g : Int) * cellSize g w + ((g : Int) + 1) * gap g w ≤ boardSize g w := by
  have hgpos : 0 < g := by rcases hg with rfl | rfl | rfl <;> norm_num
  have hgz : ((g : Int)) ≠ 0 := by exact_mod_cast hgpos.ne'
  refine ⟨min_le_left _ _, le_max_left _ _, rfl, ?_⟩
  have h1 := Int.emod_add_ediv (boardSize g w - gap g w * ((g : Int) + 1)) (g : Int)
  have h2 := Int.emod_nonneg (boardSize g w - gap g w * ((g : Int) + 1)) hgz
  show (g : Int) * cellSize g w + ((g : Int) + 1) * gap g w ≤ boardSize g w
  unfold cellSize
  linarith

/-- C10 witness: a 4×4 grid on a 400 px window. -/
theorem useBoardSize_fits_witness :
    4 ≤ gap 4 400 ∧
    (4 : Int) * cellSize 4 400 + ((4 : Int) + 1) * gap 4 400 ≤ boardSize 4 400 ∧
    boardSize 4 400 ≤ 520 := by
  have h := useBoardSize_fits 4 (Or.inl rfl) 400
  refine ⟨h.2.1, ?_, ?_⟩
  · have h4 := h.2.2.2
    exact_mod_cast h4
  · have h1 := h.1
    simpa using h1

/-- C4: spawn on a full board (no empty positions) returns the snapshot
unchanged, and otherwise appends one new tile on a position that was empty —
never on an occupied cell. -/
theorem spawn_spec (s : Snapshot) (k v nid : Nat) :
    (emptyPositions s = [] → spawn s k v nid = s) ∧
    (emptyPositions s ≠ [] →
      ∃ p, p ∈ emptyPositions s ∧
        spawn s k v nid = { s with tiles := s.tiles ++
          [{ id := nid, value := v, row := p.1, col := p.2,
             previousPosition := none, isNew := true, isMerged := false }] } ∧
        ∀ t ∈ s.tiles, ¬(t.row = p.1 ∧ t.col = p.2)) := by
  constructor
  · intro h
    simp [spawn, h]
  · intro h
    have hlen : 0 < (emptyPositions s).length := List.length_pos.mpr h
    have hne : (emptyPositions s).isEmpty = false := by
      simpa [List.isEmpty_iff] using h
    have hlt : k % (emptyPositions s).length < (emptyPositions s).length :=
      Nat.mod_lt _ hlen
    refine ⟨(emptyPositions s).getD (k % (emptyPositions s).length) (0, 0), ?_, ?_, ?_⟩
    · rw [List.getD_eq_getElem _ _ hlt]
      exact List.getElem_mem hlt
    · simp [spawn, hne]
    · intro t ht
      have hp : (emptyPositions s).getD (k % (emptyPositions s).length) (0, 0) ∈
          emptyPositions s := by
        rw [List.getD_eq_getElem _ _ hlt]
        exact List.getElem_mem hlt
      have := (List.mem_filter.mp hp).2
      simp only [Bool.not_eq_true', occupiedAt, List.any_eq_false] at this
      intro hc
      have h2 := this t ht
      simp only [Bool.and_eq_true, beq_iff_eq] at h2
      exact h2 ⟨hc.1, hc.2⟩

/-- Example snapshots for the spawn witness: a full 1×1 board and an empty
1×1 board. -/
def fullBoard1 : Snapshot :=
  { tiles := [{ id := 1, value := 2, row := 0, col := 0,
                previousPosition := none, isNew := false, isMerged := false }],
    gridSize := 1, score := 0, maxTileValue := 2 }

/-- An empty 1×1 snapshot. -/
def emptyBoard1 : Snapshot :=
  { tiles := [], gridSize := 1, score := 0, maxTileValue := 0 }

/-- C4 witness: spawning on the full 1×1 board is a no-op; spawning on the
empty 1×1 board lands on an empty position. -/
theorem spawn_spec_witness :
    spawn fullBoard1 0 2 5 = fullBoard1 ∧
    ∃ p, p ∈ emptyPositions emptyBoard1 ∧
      spawn emptyBoard1 0 2 5 = { emptyBoard1 with tiles := emptyBoard1.tiles ++
        [{ id := 5, value := 2, row := p.1, col := p.2,
           previousPosition := none, isNew := true, isMerged := false }] } ∧
      ∀ t ∈ emptyBoard1.tiles, ¬(t.row = p.1 ∧ t.col = p.2) := by
  constructor
  · exact (spawn_spec fullBoard1 0 2 5).1 (by decide)
  · exact (spawn_spec emptyBoard1 0 2 5).2 (by decide)

/-- C6: with uses remaining, the divider fails with InvalidTarget on a missing
tile id or on a tile of value 2 (producing no new state), and on any other
existing tile halves that tile's value by integer floor division, keeping its
position and the number of tiles, and leaving every other tile in place. -/
theorem divider_spec (s : Snapshot) (ps : PowerUpState) (tid : Nat)
    (hps : 0 < ps.divider) :
    (findTile s tid = none → applyDivider s ps tid = .error .invalidTarget) ∧
    (∀ t, findTile s tid = some t → t.value = 2 →
      applyDivider s ps tid = .error .invalidTarget) ∧
    (∀ t, findTile s tid = some t → 2 < t.value →
      ∃ s', applyDivider s ps tid = .ok (s', { ps with divider := ps.divider - 1 }) ∧
        s'.tiles.length = s.tiles.length ∧
        s'.gridSize = s.gridSize ∧
        (∃ t' ∈ s'.tiles, t'.id = t.id ∧ t'.value = t.value / 2 ∧
          t'.row = t.row ∧ t'.col = t.col) ∧
        (∀ x ∈ s.tiles, x.id ≠ tid → x ∈ s'.tiles)) := by
  have hz : ps.divider ≠ 0 := hps.ne'
  refine ⟨?_, ?_, ?_⟩
  · intro h
    simp [applyDivider, hz, h]
  · intro t ht hv
    simp [applyDivider, hz, ht, hv]
  · intro t ht hv
    refine ⟨{ s with tiles := s.tiles.map (fun x =>
        if x.id = tid then { x with value := x.value / 2 } else x) }, ?_, ?_, rfl, ?_, ?_⟩
    · simp [applyDivider, hz, ht, not_le.mpr hv]
    · simp
    · have htid : t.id = tid := by
        have := List.find?_some ht
        simpa [beq_iff_eq] using this
      have hmem : t ∈ s.tiles := List.mem_of_find?_eq_some ht
      refine ⟨{ t with value := t.value / 2 }, ?_, rfl, rfl, rfl, rfl⟩
      simp only [List.mem_map]
      exact ⟨t, hmem, by rw [if_pos htid]⟩
    · intro x hx hxid
      simp only [List.mem_map]
      exact ⟨x, hx, by rw [if_neg hxid]⟩

/-- The 2-tile of the divider witness board. -/
def dividerTile2 : Tile :=
  { id := 1, value := 2, row := 0, col := 0,
    previousPosition := none, isNew := false, isMerged := false }

/-- The 8-tile of the divider witness board. -/
def dividerTile8 : Tile :=
  { id := 2, value := 8, row := 0, col := 1,
    previousPosition := none, isNew := false, isMerged := false }

/-- Example snapshot for the divider witness: a 2-tile (id 1) and an 8-tile
(id 2) on a 4×4 board. -/
def dividerBoard : Snapshot :=
  { tiles := [dividerTile2, dividerTile8],
    gridSize := 4, score := 0, maxTileValue := 8 }

/-- PowerUpState with one use of everything left. -/
def onePowerUps : PowerUpState :=
  { divider := 1, doubler := 1, swapper := 1, undo := 1, selectedTileId := none }

/-- C6 witness: on the example board, dividing a missing id and dividing the
2-tile both fail with InvalidTarget, and dividing the 8-tile succeeds and
halves it to 4 in place. -/
theorem divider_spec_witness :
    applyDivider dividerBoard onePowerUps 9 = .error .invalidTarget ∧
    applyDivider dividerBoard onePowerUps 1 = .error .invalidTarget ∧
    ∃ s', applyDivider dividerBoard onePowerUps 2 =
        .ok (s', { onePowerUps with divider := onePowerUps.divider - 1 }) ∧
      s'.tiles.length = dividerBoard.tiles.length ∧
      s'.gridSize = dividerBoard.gridSize ∧
      (∃ t' ∈ s'.tiles, t'.id = 2 ∧ t'.value = 8 / 2 ∧ t'.row = 0 ∧ t'.col = 1) ∧
      (∀ x ∈ dividerBoard.tiles, x.id ≠ 2 → x ∈ s'.tiles) := by
  have h := divider_spec dividerBoard onePowerUps 2 (by decide)
  refine ⟨?_, ?_, ?_⟩
  · exact (divider_spec dividerBoard onePowerUps 9 (by decide)).1 (by decide)
  · exact (divider_spec dividerBoard onePowerUps 1 (by decide)).2.1 dividerTile2
      (by decide) (by decide)
  · exact h.2.2 dividerTile8 (by decide) (by decide)

/-- C8: with uses remaining, the doubler applied to an existing tile doubles
that tile's value in place and reports won exactly when the doubled value
reaches the configured win threshold; in particular a doubled value at or
above the threshold always comes back with won = true. -/
theorem doubler_spec (winValue : Nat) (s : Snapshot) (ps : PowerUpState) (tid : Nat)
    (hps : 0 < ps.doubler) :
    (∀ t, findTile s tid = some t →
      ∃ s', applyDoubler winValue s ps tid =
          .ok (s', { ps with doubler := ps.doubler - 1 }, decide (winValue ≤ t.value * 2)) ∧
        (∃ t' ∈ s'.tiles, t'.id = t.id ∧ t'.value = t.value * 2 ∧
          t'.row = t.row ∧ t'.col = t.col) ∧
        s'.tiles.length = s.tiles.length) ∧
    (∀ t, findTile s tid = some t → winValue ≤ t.value * 2 →
      ∃ s' ps', applyDoubler winValue s ps tid = .ok (s', ps', true)) := by
  have hz : ps.doubler ≠ 0 := hps.ne'
  have key : ∀ t, findTile s tid = some t →
      ∃ s', applyDoubler winValue s ps tid =
          .ok (s', { ps with doubler := ps.doubler - 1 }, decide (winValue ≤ t.value * 2)) ∧
        (∃ t' ∈ s'.tiles, t'.id = t.id ∧ t'.value = t.value * 2 ∧
          t'.row = t.row ∧ t'.col = t.col) ∧
        s'.tiles.length = s.tiles.length := by
    intro t ht
    have htid : t.id = tid := by
      have := List.find?_some ht
      simpa [beq_iff_eq] using this
    have hmem : t ∈ s.tiles := List.mem_of_find?_eq_some ht
    refine ⟨{ s with tiles := s.tiles.map (fun x =>
        if x.id = tid then { x with value := x.value * 2 } else x) }, ?_, ?_, ?_⟩
    · simp [applyDoubler, hz, ht]
    · refine ⟨{ t with value := t.value * 2 }, ?_, rfl, rfl, rfl, rfl⟩
      simp only [List.mem_map]
      exact ⟨t, hmem, by rw [if_pos htid]⟩
    · simp
  refine ⟨key, ?_⟩
  intro t ht hwin
  obtain ⟨s', hs', -, -⟩ := key t ht
  exact ⟨s', _, by rw [hs', decide_eq_true hwin]⟩

/-- The 1024-tile of the doubler witness board. -/
def doublerTile : Tile :=
  { id := 7, value := 1024, row := 2, col := 3,
    previousPosition := none, isNew := false, isMerged := false }

/-- Example snapshot for the doubler witness: a single 1024-tile (id 7). -/
def doublerBoard : Snapshot :=
  { tiles := [doublerTile], gridSize := 4, score := 0, maxTileValue := 1024 }

/-- C8 witness: doubling the 1024-tile with win threshold 2048 produces a
2048-tile at the same cell and won = true. -/
theorem doubler_spec_witness :
    (∃ s', applyDoubler 2048 doublerBoard onePowerUps 7 =
        .ok (s', { onePowerUps with doubler := onePowerUps.doubler - 1 },
          decide ((2048 : Nat) ≤ doublerTile.value * 2)) ∧
      (∃ t' ∈ s'.tiles, t'.id = doublerTile.id ∧ t'.value = doublerTile.value * 2 ∧
        t'.row = doublerTile.row ∧ t'.col = doublerTile.col) ∧
      s'.tiles.length = doublerBoard.tiles.length) ∧
    (∃ s' ps', applyDoubler 2048 doublerBoard onePowerUps 7 = .ok (s', ps', true)) := by
  have h := doubler_spec 2048 doublerBoard onePowerUps 7 (by decide)
  exact ⟨h.1 doublerTile (by decide), h.2 doublerTile (by decide) (by decide)⟩

/-- C7: after a board-changing move, undo succeeds, restoring the tiles,
score and power-up counters of the state immediately preceding the move as
one atomic replacement (only the undo budget is one lower), and — the history
being single-level — a second consecutive undo returns exactly the same state
as the first. -/
theorem undo_spec (g : Game) (d : Direction) (k v nid : Nat)
    (hmoved : (move g.snap d).2 = true) (hundo : 2 ≤ g.ps.undo) :
    ∃ g1, undo (doMove g d k v nid) = .ok g1 ∧
      g1.snap = g.snap ∧
      g1.ps.divider = g.ps.divider ∧ g1.ps.doubler = g.ps.doubler ∧
      g1.ps.swapper = g.ps.swapper ∧ g1.ps.undo = g.ps.undo - 1 ∧
      undo g1 = .ok g1 := by
  have h0 : g.ps.undo ≠ 0 := by omega
  have h1 : g.ps.undo - 1 ≠ 0 := by omega
  refine ⟨{ snap := g.snap, ps := { g.ps with undo := g.ps.undo - 1 },
            hist := some (g.snap, g.ps) }, ?_, rfl, rfl, rfl, rfl, rfl, ?_⟩
  · have hmv : doMove g d k v nid =
        { snap := spawn (move g.snap d).1 k v nid, ps := g.ps,
          hist := some (g.snap, g.ps) } := by
      simp [doMove, hmoved]
    rw [hmv]
    simp [undo, h0]
  · simp [undo, h1]

/-- Example game for the undo witness: one 2-tile at the origin of a 2×2
board, two undo uses left, no history yet. -/
def undoGame : Game :=
  { snap := { tiles := [{ id := 1, value := 2, row := 0, col := 0,
                          previousPosition := none, isNew := false, isMerged := false }],
              gridSize := 2, score := 0, maxTileValue := 2 },
    ps := { divider := 1, doubler := 1, swapper := 1, undo := 2, selectedTileId := none },
    hist := none }

/-- C7 witness: moving right on the example game changes the board, undo then
restores the pre-move state, and undoing again yields the same state. -/
theorem undo_spec_witness :
    ∃ g1, undo (doMove undoGame Direction.right 0 2 9) = .ok g1 ∧
      g1.snap = undoGame.snap ∧
      g1.ps.divider = undoGame.ps.divider ∧ g1.ps.doubler = undoGame.ps.doubler ∧
      g1.ps.swapper = undoGame.ps.swapper ∧ g1.ps.undo = undoGame.ps.undo - 1 ∧
      undo g1 = .ok g1 :=
  undo_spec undoGame Direction.right 0 2 9 (by decide) (by decide)

lemma mem_gridPositions {n : Nat} {p : Nat × Nat} :
    p ∈ gridPositions n ↔ p.1 < n ∧ p.2 < n := by
  obtain ⟨r, c⟩ := p
  simp only [gridPositions, List.mem_flatMap, List.mem_map, List.mem_range, Prod.mk.injEq]
  constructor
  · rintro ⟨a, ha, b, hb, rfl, rfl⟩
    exact ⟨ha, hb⟩
  · rintro ⟨hr, hc⟩
    exact ⟨r, hr, c, hc, rfl, rfl⟩

lemma emptyPositions_eq_nil_iff (s : Snapshot) :
    emptyPositions s = [] ↔
      ∀ r < s.gridSize, ∀ c < s.gridSize, ∃ t ∈ s.tiles, t.row = r ∧ t.col = c := by
  simp only [emptyPositions, List.filter_eq_nil_iff, Bool.not_eq_true',
    Bool.not_eq_false, occupiedAt, List.any_eq_true, Bool.and_eq_true, beq_iff_eq]
  constructor
  · intro h r hr c hc
    have := h (r, c) (mem_gridPositions.mpr ⟨hr, hc⟩)
    obtain ⟨t, ht, h1, h2⟩ := this
    exact ⟨t, ht, h1, h2⟩
  · intro h p hp
    obtain ⟨hr, hc⟩ := mem_gridPositions.mp hp
    obtain ⟨t, ht, h1, h2⟩ := h p.1 hr p.2 hc
    exact ⟨t, ht, h1, h2⟩

lemma hasMergeablePair_iff (s : Snapshot) :
    hasMergeablePair s = true ↔
      ∃ t ∈ s.tiles, ∃ u ∈ s.tiles, Adjacent t u ∧ t.value = u.value := by
  simp only [hasMergeablePair, List.any_eq_true, Bool.and_eq_true, Bool.or_eq_true,
    beq_iff_eq, Adjacent]
  constructor
  · rintro ⟨t, ht, u, hu, hv, hadj⟩
    exact ⟨t, ht, u, hu, hadj, hv⟩
  · rintro ⟨t, ht, u, hu, hadj, hv⟩
    exact ⟨t, ht, u, hu, hv, hadj⟩

/-- C1: isGameOver holds exactly when every grid cell is occupied, no two
horizontally or vertically adjacent tiles share a value, and the divider,
doubler and swapper counters are all zero; in particular it is false whenever
some adjacent pair shares a value, even on a full grid. -/
theorem isGameOver_spec (s : Snapshot) (ps : PowerUpState) :
    (isGameOver s ps = true ↔
      (∀ r < s.gridSize, ∀ c < s.gridSize, ∃ t ∈ s.tiles, t.row = r ∧ t.col = c) ∧
      (∀ t ∈ s.tiles, ∀ u ∈ s.tiles, Adjacent t u → t.value ≠ u.value) ∧
      ps.divider = 0 ∧ ps.doubler = 0 ∧ ps.swapper = 0) ∧
    (∀ t ∈ s.tiles, ∀ u ∈ s.tiles, Adjacent t u → t.value = u.value →
      isGameOver s ps = false) := by
  have hiff : isGameOver s ps = true ↔
      (∀ r < s.gridSize, ∀ c < s.gridSize, ∃ t ∈ s.tiles, t.row = r ∧ t.col = c) ∧
      (∀ t ∈ s.tiles, ∀ u ∈ s.tiles, Adjacent t u → t.value ≠ u.value) ∧
      ps.divider = 0 ∧ ps.doubler = 0 ∧ ps.swapper = 0 := by
    simp only [isGameOver, Bool.and_eq_true, List.isEmpty_iff, beq_iff_eq,
      Bool.not_eq_true', and_assoc]
    rw [emptyPositions_eq_nil_iff]
    constructor
    · rintro ⟨hfull, hmerge, h1, h2, h3⟩
      refine ⟨hfull, ?_, h1, h2, h3⟩
      intro t ht u hu hadj hv
      have : hasMergeablePair s = true := (hasMergeablePair_iff s).mpr ⟨t, ht, u, hu, hadj, hv⟩
      rw [this] at hmerge
      exact Bool.noConfusion hmerge
    · rintro ⟨hfull, hnomerge, h1, h2, h3⟩
      refine ⟨hfull, ?_, h1, h2, h3⟩
      by_contra hne
      have : hasMergeablePair s = true := by
        cases hcase : hasMergeablePair s with
        | true => rfl
        | false => exact absurd hcase hne
      obtain ⟨t, ht, u, hu, hadj, hv⟩ := (hasMergeablePair_iff s).mp this
      exact hnomerge t ht u hu hadj hv
  refine ⟨hiff, ?_⟩
  intro t ht u hu hadj hv
  cases hg : isGameOver s ps with
  | false => rfl
  | true =>
    obtain ⟨-, hnomerge, -⟩ := hiff.mp hg
    exact absurd hv (hnomerge t ht u hu hadj)

/-- Tile at (0,0) with value 2 for the game-over witness boards. -/
def goTileA : Tile :=
  { id := 1, value := 2, row := 0, col := 0,
    previousPosition := none, isNew := false, isMerged := false }

/-- Tile at (0,1) with value 2 for the game-over witness boards. -/
def goTileB : Tile :=
  { id := 2, value := 2, row := 0, col := 1,
    previousPosition := none, isNew := false, isMerged := false }

/-- A full 2×2 board with an adjacent equal pair (the two 2-tiles). -/
def fullMergeableBoard : Snapshot :=
  { tiles := [goTileA, goTileB,
              { id := 3, value := 4, row := 1, col := 0,
                previousPosition := none, isNew := false, isMerged := false },
              { id := 4, value := 8, row := 1, col := 1,
                previousPosition := none, isNew := false, isMerged := false }],
    gridSize := 2, score := 0, maxTileValue := 8 }

/-- A full 2×2 board with no adjacent equal pair. -/
def stuckBoard : Snapshot :=
  { tiles := [{ id := 1, value := 2, row := 0, col := 0,
                previousPosition := none, isNew := false, isMerged := false },
              { id := 2, value := 4, row := 0, col := 1,
                previousPosition := none, isNew := false, isMerged := false },
              { id := 3, value := 8, row := 1, col := 0,
                previousPosition := none, isNew := false, isMerged := false },
              { id := 4, value := 16, row := 1, col := 1,
                previousPosition := none, isNew := false, isMerged := false }],
    gridSize := 2, score := 0, maxTileValue := 16 }

/-- PowerUpState with every counter at zero. -/
def zeroPowerUps : PowerUpState :=
  { divider := 0, doubler := 0, swapper := 0, undo := 0, selectedTileId := none }

/-- C1 witness: the full mergeable board is not game over even with all
power-ups exhausted, while the stuck board with exhausted power-ups is. -/
theorem isGameOver_spec_witness :
    isGameOver fullMergeableBoard zeroPowerUps = false ∧
    isGameOver stuckBoard zeroPowerUps = true := by
  constructor
  · exact (isGameOver_spec fullMergeableBoard zeroPowerUps).2 goTileA (by decide)
      goTileB (by decide) (by decide) (by decide)
  · exact (isGameOver_spec stuckBoard zeroPowerUps).1.mpr (by decide)

lemma w4_eq {d : ℚ} (hd : 0 ≤ d) : w4 d = 5 + 30 * d :=
  max_eq_right (by linarith)

lemma w2_pos (d : ℚ) : 0 < w2 d :=
  lt_of_lt_of_le one_pos (le_max_left _ _)

lemma w4_pos (d : ℚ) : 0 < w4 d :=
  lt_of_lt_of_le one_pos (le_max_left _ _)

lemma w8_nonneg (d : ℚ) : 0 ≤ w8 d :=
  le_max_left _ _

lemma totalWeight_pos {d : ℚ} : 0 < totalWeight d := by
  have h2 := w2_pos d
  have h4 := w4_pos d
  have h8 := w8_nonneg d
  unfold totalWeight
  linarith

lemma w2_antitone {d1 d2 : ℚ} (h : d1 ≤ d2) : w2 d2 ≤ w2 d1 :=
  max_le_max le_rfl (by linarith)

lemma w8_mono {d1 d2 : ℚ} (h : d1 ≤ d2) : w8 d1 ≤ w8 d2 :=
  max_le_max le_rfl (by linarith)

lemma w2_le_shift {d1 d2 : ℚ} (h : d1 ≤ d2) : w2 d1 ≤ w2 d2 + 20 * (d2 - d1) := by
  unfold w2
  apply max_le
  · have := le_max_left (1 : ℚ) (100 - 20 * d2)
    linarith
  · have := le_max_right (1 : ℚ) (100 - 20 * d2)
    linarith

lemma totalWeight_strictMono {d1 d2 : ℚ} (hd1 : 0 ≤ d1) (h : d1 < d2) :
    totalWeight d1 < totalWeight d2 := by
  have h4a := w4_eq hd1
  have h4b := w4_eq (hd1.trans h.le)
  have hshift := w2_le_shift h.le
  have h8 := w8_mono h.le
  unfold totalWeight
  linarith

lemma w2_eq_lin {d : ℚ} (hd : d ≤ 99 / 20) : w2 d = 100 - 20 * d :=
  max_eq_right (by linarith)

lemma w2_eq_one {d : ℚ} (hd : 99 / 20 ≤ d) : w2 d = 1 := by
  rcases eq_or_lt_of_le hd with heq | hlt
  · rw [← heq]
    unfold w2
    norm_num
  · exact max_eq_left (by linarith)

lemma w8_eq_zero {d : ℚ} (hd : d ≤ 3) : w8 d = 0 :=
  max_eq_left (by linarith)

lemma w8_eq_lin {d : ℚ} (hd : 3 ≤ d) : w8 d = (d - 3) * 25 :=
  max_eq_right (by linarith)

lemma w4Share_lt_of_lt {d1 d2 : ℚ} (hd1 : 0 ≤ d1) (h : d1 < d2) (hcap : d2 ≤ 99 / 20) :
    w4Share d1 < w4Share d2 := by
  have hd2 : 0 ≤ d2 := hd1.trans h.le
  rw [w4Share, w4Share, div_lt_div_iff₀ totalWeight_pos totalWeight_pos]
  rw [w4_eq hd1, w4_eq hd2]
  unfold totalWeight
  rw [w4_eq hd1, w4_eq hd2, w2_eq_lin (le_trans h.le hcap), w2_eq_lin hcap]
  rcases le_or_lt d1 3 with h31 | h31
  · rcases le_or_lt d2 3 with h32 | h32
    · rw [w8_eq_zero h31, w8_eq_zero h32]
      nlinarith
    · rw [w8_eq_zero h31, w8_eq_lin h32.le]
      nlinarith [mul_pos (show (0 : ℚ) < 2975 - 750 * d1 by linarith)
        (show (0 : ℚ) < d2 - 3 by linarith)]
  · rw [w8_eq_lin h31.le, w8_eq_lin (h31.trans h).le]
    nlinarith

lemma w2Share_lt_of_lt {d1 d2 : ℚ} (hd1 : 0 ≤ d1) (h : d1 < d2) :
    w2Share d2 < w2Share d1 := by
  rw [w2Share, w2Share, div_lt_div_iff₀ totalWeight_pos totalWeight_pos]
  have h1 : w2 d2 * totalWeight d1 < w2 d2 * totalWeight d2 :=
    mul_lt_mul_of_pos_left (totalWeight_strictMono hd1 h) (w2_pos d2)
  have h2 : w2 d2 * totalWeight d2 ≤ w2 d1 * totalWeight d2 :=
    mul_le_mul_of_nonneg_right (w2_antitone h.le) totalWeight_pos.le
  linarith

lemma w4Share_le_cap {d : ℚ} (hd0 : 0 ≤ d) (_hd7 : d ≤ 7) :
    w4Share d ≤ w4Share (99 / 20) := by
  rcases le_or_lt d (99 / 20) with hle | hgt
  · rcases eq_or_lt_of_le hle with heq | hlt
    · rw [heq]
    · exact (w4Share_lt_of_lt hd0 hlt le_rfl).le
  · have h99 : (0 : ℚ) ≤ 99 / 20 := by norm_num
    rw [w4Share, w4Share, div_le_div_iff₀ totalWeight_pos totalWeight_pos]
    unfold totalWeight
    rw [w4_eq hd0, w4_eq h99, w2_eq_one hgt.le, w2_eq_one le_rfl,
      w8_eq_lin (by linarith : (3 : ℚ) ≤ d), w8_eq_lin (by norm_num : (3 : ℚ) ≤ 99 / 20)]
    nlinarith

lemma dscalar_mono {m s1 s2 : ℕ} (h : s1 ≤ s2) :
    min (Real.logb 10 (effectiveScore s1 m : ℝ)) 7 ≤
      min (Real.logb 10 (effectiveScore s2 m : ℝ)) 7 := by
  have hb : (1 : ℝ) < 10 := by norm_num
  have hes : effectiveScore s1 m ≤ effectiveScore s2 m := by
    unfold effectiveScore
    omega
  rcases Nat.eq_zero_or_pos (effectiveScore s1 m) with h0 | hpos
  · have hlog1 : Real.logb 10 (effectiveScore s1 m : ℝ) = 0 := by
      rw [h0]
      simp [Real.logb_zero]
    have hlog2 : 0 ≤ Real.logb 10 (effectiveScore s2 m : ℝ) := by
      rcases Nat.eq_zero_or_pos (effectiveScore s2 m) with h02 | hpos2
      · rw [h02]
        simp [Real.logb_zero]
      · exact Real.logb_nonneg hb (by exact_mod_cast hpos2)
    rw [hlog1, min_eq_left (by norm_num : (0 : ℝ) ≤ 7)]
    exact le_min hlog2 (by norm_num)
  · apply min_le_min _ le_rfl
    exact Real.logb_le_logb_of_le hb (by exact_mod_cast hpos) (by exact_mod_cast hes)

/-- C5: for fixed maxTileValue, the difficulty scalar
D = min(log10(score + maxTileValue*20), 7) never decreases when the score
increases (log10 0 being read as the game-start value 0); and in terms of the
documented weights w2, w4, w8 as functions of D on [0, 7], the share of w2 in
the total strictly decreases as D increases, while the share of w4 strictly
increases up to D = 99/20 — the point where w2 reaches its floor — which is
where the w4 share attains its cap. -/
theorem difficulty_curve_monotone :
    (∀ (m s1 s2 : ℕ), s1 ≤ s2 →
      min (Real.logb 10 (effectiveScore s1 m : ℝ)) 7 ≤
        min (Real.logb 10 (effectiveScore s2 m : ℝ)) 7) ∧
    (∀ d1 d2 : ℚ, 0 ≤ d1 → d1 < d2 → d2 ≤ 7 → w2Share d2 < w2Share d1) ∧
    (∀ d1 d2 : ℚ, 0 ≤ d1 → d1 < d2 → d2 ≤ 99 / 20 → w4Share d1 < w4Share d2) ∧
    (∀ d : ℚ, 0 ≤ d → d ≤ 7 → w4Share d ≤ w4Share (99 / 20)) :=
  ⟨fun _ _ _ h => dscalar_mono h,
   fun _ _ h1 h2 _ => w2Share_lt_of_lt h1 h2,
   fun _ _ h1 h2 h3 => w4Share_lt_of_lt h1 h2 h3,
   fun _ h1 h2 => w4Share_le_cap h1 h2⟩

/-- C5 witness: concrete instances — a score increase from 0 to 100 with no
max tile, and weight shares at D = 1, 2, 3. -/
theorem difficulty_curve_monotone_witness :
    min (Real.logb 10 (effectiveScore 0 0 : ℝ)) 7 ≤
      min (Real.logb 10 (effectiveScore 100 0 : ℝ)) 7 ∧
    w2Share 2 < w2Share 1 ∧ w4Share 1 < w4Share 2 ∧ w4Share 3 ≤ w4Share (99 / 20) :=
  ⟨difficulty_curve_monotone.1 0 0 100 (by norm_num),
   difficulty_curve_monotone.2.1 1 2 (by norm_num) (by norm_num) (by norm_num),
   difficulty_curve_monotone.2.2.1 1 2 (by norm_num) (by norm_num) (by norm_num),
   difficulty_curve_monotone.2.2.2 3 (by norm_num) (by norm_num)⟩

end Game2468
